import Mathlib

/-!
Shallow embedding of the GPU FFT driver in `src/gpu/fft.rs` (struct `FFTKernel` and its
methods `setup_pq`, `radix_fft_round`, `radix_fft`, `inplace_fft`, `fft`), together with
theorems checking the natural-language specification against it.

Modelling conventions:
* field elements are an abstract type `F` with a `Monoid` structure (the code only uses
  `E::Fr::one()`, `mul_assign` and `pow`); concrete instantiations use `ZMod p`;
* Rust `Vec` index reads/writes are bounds-checked: an out-of-bounds access is a panic,
  modelled by `Option` (`none` = panic);
* machine integers are `Nat`; the one place where a fixed width matters
  (`1u32 << lgn` in `radix_fft_round`) is modelled explicitly by a `32 ≤ lgn` overflow
  branch that panics, mirroring the checked-arithmetic semantics;
* device operations (buffer writes/reads, kernel enqueues) are recorded as events; a
  host-to-device transfer of more elements than the buffer holds fails with an `Ocl`
  error, shorter transfers succeed, kernel enqueues succeed;
* the collaborator predicate `locks::PriorityLock::should_break` and the device memory
  query `get_memory` live outside `src/`; the former is modelled from the spec, the
  latter is passed in as a parameter `mem`.
-/

namespace BellmanFFT

/-- Constant `LOG2_MAX_ELEMENTS` (fft.rs line 14): at most `2^32` elements supported. -/
def LOG2_MAX_ELEMENTS : Nat := 32

/-- Constant `MAX_RADIX_DEGREE` (fft.rs line 15): radix 256. -/
def MAX_RADIX_DEGREE : Nat := 8

/-- Constant `MAX_LOCAL_WORK_SIZE_DEGREE` (fft.rs line 16): 128. -/
def MAX_LOCAL_WORK_SIZE_DEGREE : Nat := 7

/-- The error cases of `GPUError` reachable from the modelled functions:
`GPUTaken` (cancellation) and `Ocl` (any error of the underlying compute layer). -/
inductive GPUError
  | GPUTaken
  | Ocl
  deriving DecidableEq

/-- `GPUResult<T> = Result<T, GPUError>`. -/
inductive GPUResult (α : Type)
  | ok (a : α)
  | err (e : GPUError)
  deriving DecidableEq

/-- The two ping-pong device buffers allocated by `radix_fft`. -/
inductive BufId
  | src
  | dst
  deriving DecidableEq

/-- Observable device-side actions of a transform call. -/
inductive Ev
  | prioCheck
  | bufAlloc (len : Nat)
  | bufWrite (len : Nat)
  | bufRead (len : Nat)
  | kernelEnq (k : String)
  deriving DecidableEq

/-- Modelled from the spec: `locks::PriorityLock::should_break(priority)` (module
`gpu/locks.rs` is not under `src/`). Per the spec, the priority flag partitions holders
into priority (non-cancellable) and non-priority (cancellable) ones, and when
`priority = false` and the signal is set, the next checked entry point aborts. -/
def should_break (priority signal : Bool) : Bool := !priority && signal

section HostTables

variable {F : Type} [Monoid F] [Inhabited F]

/-- A bounds-checked write `a[i] = v` to a Rust `Vec`; out of bounds panics (`none`). -/
def setChecked (a : Array F) (i : Nat) (v : F) : Option (Array F) :=
  if h : i < a.size then some (a.set ⟨i, h⟩ v) else none

/-- One iteration of the table-filling loops of `setup_pq`: read `a[i-1]`, store
`f a[i-1]` into `a[i]` (for the `pq` loop `f` is `(* tw)`, fft.rs lines 140-141;
for the `omg` loop `f` is squaring, line 153). -/
def chainStep (f : F → F) (a : Array F) (i : Nat) : Option (Array F) :=
  (a[i-1]?).bind fun prev => setChecked a i (f prev)

/-- The table-filling `for` loop of `setup_pq` over an explicit index list. -/
def chainLoop (f : F → F) : List Nat → Array F → Option (Array F)
  | [], a => some a
  | i :: rest, a => (chainStep f a i).bind (chainLoop f rest)

/-- The host `pq` table built by `setup_pq` (fft.rs lines 131-143): a vector of
`1 << max_deg >> 1` zeroed (`default`) entries, then `pq[0] = 1`, and if
`max_deg > 1` also `pq[1] = tw` and `pq[i] = pq[i-1] * tw` for
`i in 2..(1 << max_deg >> 1)`, where `tw = omega^(n >> max_deg)` (line 135). -/
def pqHostTable (ω : F) (n maxDeg : Nat) : Option (Array F) :=
  (setChecked (Array.mkArray (1 <<< maxDeg >>> 1) (default : F)) 0 1).bind fun tpq1 =>
    if 1 < maxDeg then
      (setChecked tpq1 1 (ω ^ (n >>> maxDeg))).bind fun tpq2 =>
        chainLoop (fun x => x * ω ^ (n >>> maxDeg))
          (List.range' 2 ((1 <<< maxDeg >>> 1) - 2)) tpq2
    else some tpq1

/-- The host `omg` table built by `setup_pq` (fft.rs lines 146-154): 32 zeroed
entries, then `om[0] = omega` and `om[i] = om[i-1]^2` for `i in 1..32`. -/
def omgHostTable (ω : F) : Option (Array F) :=
  (setChecked (Array.mkArray LOG2_MAX_ELEMENTS (default : F)) 0 ω).bind fun tom1 =>
    chainLoop (fun x => x ^ 2) (List.range' 1 (LOG2_MAX_ELEMENTS - 1)) tom1

/-- `FFTKernel::setup_pq(omega, n, max_deg)` (fft.rs lines 128-158): builds the host
`pq` and `omg` tables and transfers each to the device (the transfer writes exactly
the host vector's length in elements).  Returns the two host tables and the transfer
events, or `none` on a panic (out-of-bounds vector index). -/
def setup_pq (ω : F) (n maxDeg : Nat) : Option ((Array F × Array F) × List Ev) :=
  (pqHostTable ω n maxDeg).bind fun tpq =>
    (omgHostTable ω).bind fun tom =>
      some ((tpq, tom), [Ev.bufWrite tpq.size, Ev.bufWrite tom.size])

end HostTables

/-- Arguments of the `radix_fft` kernel as set by `radix_fft_round` (fft.rs
lines 103-119). -/
inductive Arg
  | buf (b : BufId)
  | pqTable
  | omgTable
  | localScratch (len : Nat)
  | num (v : Nat)
  deriving DecidableEq

/-- A built kernel: its global/local work sizes and its argument list in order. -/
structure KernelCall where
  globalWS : Nat
  localWS : Nat
  args : List Arg
  deriving DecidableEq

/-- `FFTKernel::radix_fft_round` (fft.rs lines 82-125).  `sb` is the value of
`locks::PriorityLock::should_break(self.priority)`.  The cancellation gate comes first
(lines 92-94); then `let n = 1u32 << lgn` (line 96), which is an arithmetic overflow
for `32 ≤ lgn` (a panic, `none`); then `lwsd = min(deg - 1, MAX_LOCAL_WORK_SIZE_DEGREE)`
(line 97), whose `u32` subtraction underflows for `deg = 0` (also `none`); finally the
kernel is built and enqueued. -/
def radix_fft_round (lgn lgp deg maxDeg : Nat) (inSrc sb : Bool) :
    Option (GPUResult KernelCall) :=
  if sb then some (.err .GPUTaken)
  else if 32 ≤ lgn then none
  else if deg = 0 then none
  else
    let n := 1 <<< lgn
    let lwsd := min (deg - 1) MAX_LOCAL_WORK_SIZE_DEGREE
    some (.ok
      { globalWS := n >>> deg <<< lwsd
        localWS := 1 <<< lwsd
        args := [Arg.buf (if inSrc then BufId.src else BufId.dst),
                 Arg.buf (if inSrc then BufId.dst else BufId.src),
                 Arg.pqTable, Arg.omgTable,
                 Arg.localScratch (1 <<< deg),
                 Arg.num n, Arg.num lgp, Arg.num deg, Arg.num maxDeg] })

/-- One stage of the `radix_fft` stage loop: the values of `lgp`, `deg` and `in_src`
with which `radix_fft_round` is invoked. -/
structure Stage where
  lgp : Nat
  deg : Nat
  inSrc : Bool
  deriving DecidableEq

/-- The control flow of the `while lgp < lgn` stage loop of `radix_fft` (fft.rs lines
185-200), host arithmetic only: returns the list of stages and the final value of
`in_src`.  The loop variable updates are `deg = min(max_deg, lgn - lgp)`,
`lgp += deg`, `in_src = !in_src`.  `fuel` bounds the number of iterations; `fuel = lgn`
is enough whenever `1 ≤ maxDeg` (each stage advances `lgp` by at least one). -/
def stageLoopFuel (lgn maxDeg : Nat) : Nat → Nat → Bool → List Stage × Bool
  | 0, _, b => ([], b)
  | fuel + 1, lgp, b =>
    if lgp < lgn then
      let deg := min maxDeg (lgn - lgp)
      let r := stageLoopFuel lgn maxDeg fuel (lgp + deg) (!b)
      (⟨lgp, deg, b⟩ :: r.1, r.2)
    else ([], b)

/-- The stage list of `radix_fft` for a given `lgn` (with
`max_deg = min(MAX_RADIX_DEGREE, lgn)` as at fft.rs line 181). -/
def radixStages (lgn : Nat) : List Stage :=
  (stageLoopFuel lgn (min MAX_RADIX_DEGREE lgn) lgn 0 true).1

/-- The final value of `in_src` after the stage loop of `radix_fft`. -/
def radixFinalInSrc (lgn : Nat) : Bool :=
  (stageLoopFuel lgn (min MAX_RADIX_DEGREE lgn) lgn 0 true).2

/-- The buffer `radix_fft` reads back (fft.rs lines 201-205): `src` if the final
`in_src` is `true`, else `dst`. -/
def readBackBuf (inSrc : Bool) : BufId := if inSrc then BufId.src else BufId.dst

/-- The buffer a stage writes to: `radix_fft_round`'s second (write) argument is `dst`
when `in_src` holds and `src` otherwise (fft.rs lines 108-112). -/
def stageWriteBuf (s : Stage) : BufId := if s.inSrc then BufId.dst else BufId.src

/-- The stage schedule as the specification describes it: starting from a given `lgp`
and `in_src`, every recorded stage has the current `lgp` and `in_src`, its degree is
`min(max_deg, lgn - lgp)`, the next stage continues at `lgp + deg` with `in_src`
flipped, and the list ends exactly when `lgp < lgn` fails. -/
def StageChain (lgn maxDeg : Nat) : Nat → Bool → List Stage → Prop
  | lgp, _, [] => ¬ lgp < lgn
  | lgp, b, s :: rest =>
      lgp < lgn ∧ s.lgp = lgp ∧ s.deg = min maxDeg (lgn - lgp) ∧ s.inSrc = b ∧
      StageChain lgn maxDeg (lgp + s.deg) (!b) rest

/-- The stage loop of `radix_fft` with the calls to `radix_fft_round` included
(fft.rs lines 185-200): propagates panics (`none`) and errors of the rounds, and
otherwise returns the stages run and the final `in_src`. -/
def radixLoopFuel (lgn maxDeg : Nat) (sb : Bool) :
    Nat → Nat → Bool → Option (GPUResult (List Stage × Bool))
  | 0, _, b => some (.ok ([], b))
  | fuel + 1, lgp, b =>
    if lgp < lgn then
      let deg := min maxDeg (lgn - lgp)
      match radix_fft_round lgn lgp deg maxDeg b sb with
      | none => none
      | some (.err e) => some (.err e)
      | some (.ok _) =>
        match radixLoopFuel lgn maxDeg sb fuel (lgp + deg) (!b) with
        | none => none
        | some (.err e) => some (.err e)
        | some (.ok r) => some (.ok (⟨lgp, deg, b⟩ :: r.1, r.2))
    else some (.ok ([], b))

section Drivers

variable {F : Type} [Monoid F] [Inhabited F]

/-- `FFTKernel::radix_fft(a, omega, lgn)` (fft.rs lines 163-209) for a caller slice of
length `aLen`.  In order: `n = 1 << lgn` (`usize`, line 164), allocation of the two
`n`-element device buffers, `max_deg = min(MAX_RADIX_DEGREE, lgn)`, `setup_pq`
(propagating its panic), upload of the slice into the src buffer (an `Ocl` error if the
slice is longer than the buffer), the stage loop, and the read-back from `src` or `dst`
according to the final `in_src`.  The result is the buffer read back.  There is no
validation of `lgn` or of `aLen` against `2^lgn`.  The tail of the driver — error
propagation from the stage loop and the read-back of `aLen` elements from the buffer
the final `in_src` selects (fft.rs lines 201-205) — is split out as `radixReadback`. -/
def radixReadback (aLen lgn : Nat) :
    GPUResult (List Stage × Bool) → Option (GPUResult BufId)
  | .err e => some (.err e)
  | .ok r => if aLen ≤ 1 <<< lgn then some (.ok (readBackBuf r.2)) else some (.err .Ocl)

def radix_fft (ω : F) (aLen lgn : Nat) (sb : Bool) : Option (GPUResult BufId) :=
  (setup_pq ω (1 <<< lgn) (min MAX_RADIX_DEGREE lgn)).bind fun _ =>
    if aLen ≤ 1 <<< lgn then
      (radixLoopFuel lgn (min MAX_RADIX_DEGREE lgn) sb lgn 0 true).bind
        (radixReadback aLen lgn)
    else some (.err .Ocl)

/-- `FFTKernel::inplace_fft(a, omega, lgn)` (fft.rs lines 214-266) for a caller slice
of length `aLen`, returning the result together with the trace of events.  In order:
the cancellation gate (lines 215-217), `n = 1 << lgn` (`usize`, line 219), allocation
of the single device buffer, `setup_pq` (lines 231-232, panic propagated), upload of
the slice, the `reverse_bits` kernel, `lgn` `inplace_fft` stage kernels with no
cancellation check between them (lines 247-260), and the read-back. -/
def inplace_fft (ω : F) (aLen lgn : Nat) (sb : Bool) :
    Option (GPUResult Unit × List Ev) :=
  if sb then some (.err .GPUTaken, [Ev.prioCheck])
  else
    (setup_pq ω (1 <<< lgn) (min MAX_RADIX_DEGREE lgn)).bind fun r =>
      if aLen ≤ 1 <<< lgn then
        some (.ok (), Ev.prioCheck :: Ev.bufAlloc (1 <<< lgn) ::
          (r.2 ++ Ev.bufWrite aLen :: Ev.kernelEnq "reverse_bits" ::
            ((List.range lgn).map fun _ => Ev.kernelEnq "inplace_fft") ++
            [Ev.bufRead aLen]))
      else
        some (.err .Ocl,
          Ev.prioCheck :: Ev.bufAlloc (1 <<< lgn) :: (r.2 ++ [Ev.bufWrite aLen]))

/-- Constant `MIN_RADIX_MEMORY` (fft.rs line 269): 9 GB. -/
def MIN_RADIX_MEMORY : Nat := 9 * 1024 * 1024 * 1024

/-- `FFTKernel::fft(a, omega, lgn)` (fft.rs lines 268-278).  `mem` is the result of
the collaborator `utils::get_memory(d)` (the device's total memory in bytes; the
function is not under `src/`, so the query result is a parameter).  If `mem` strictly
exceeds `MIN_RADIX_MEMORY` the call is `radix_fft(a, omega, lgn)`, otherwise it is
`inplace_fft(a, omega, lgn)`; the sum tags which driver ran. -/
def fft (ω : F) (aLen lgn : Nat) (sb : Bool) (mem : Nat) :
    Sum (Option (GPUResult BufId)) (Option (GPUResult Unit × List Ev)) :=
  if mem > MIN_RADIX_MEMORY then Sum.inl (radix_fft ω aLen lgn sb)
  else Sum.inr (inplace_fft ω aLen lgn sb)

end Drivers

/-- The fields of `struct FFTKernel` (fft.rs lines 18-27) in declaration order, each
with a flag telling whether its type has a destructor (`bool` does not).  Per
RFC 1857 (cited in the code comment on line 25), struct fields are dropped in
declaration order. -/
def FFTKernelFields : List (String × Bool) :=
  [("proque", true),
   ("fft_pq_buffer", true),
   ("fft_omg_buffer", true),
   ("_lock", true),
   ("priority", false)]

/-- Drop order of `FFTKernel`'s fields: declaration order (RFC 1857). -/
def dropOrder : List String := FFTKernelFields.map Prod.fst

/-! ## Helper lemmas about the host tables -/

section HostTableLemmas

variable {F : Type} [Monoid F] [Inhabited F]

lemma one_shl_shr (maxDeg : Nat) (h : 1 ≤ maxDeg) :
    1 <<< maxDeg >>> 1 = 2 ^ (maxDeg - 1) := by
  rw [Nat.one_shiftLeft, Nat.shiftRight_eq_div_pow, pow_one,
    ← Nat.pow_div h (show 0 < 2 by norm_num), pow_one]

lemma setChecked_lt (a : Array F) (i : Nat) (v : F) (h : i < a.size) :
    setChecked a i v = some (a.set ⟨i, h⟩ v) := by
  simp [setChecked, h]

lemma chainLoop_spec (f : F → F) (g : Nat → F) (hg : ∀ j, g (j + 1) = f (g j)) :
    ∀ (cnt start : Nat) (a : Array F), 1 ≤ start → start + cnt ≤ a.size →
      (∀ j, j < start → a[j]? = some (g j)) →
      ∃ b, chainLoop f (List.range' start cnt) a = some b ∧
        b.size = a.size ∧ ∀ j, j < start + cnt → b[j]? = some (g j) := by
  intro cnt
  induction cnt with
  | zero =>
    intro start a _ _ hpre
    exact ⟨a, by simp [chainLoop], rfl, fun j hj => hpre j (by omega)⟩
  | succ k ih =>
    intro start a hs hsz hpre
    have hlt : start < a.size := by omega
    have hrd : a[start - 1]? = some (g (start - 1)) := hpre _ (by omega)
    have hgs : f (g (start - 1)) = g start := by
      have h1 := (hg (start - 1)).symm
      rwa [Nat.sub_add_cancel hs] at h1
    have hstep : chainStep f a start = some (a.set ⟨start, hlt⟩ (g start)) := by
      rw [chainStep, hrd, Option.some_bind, setChecked_lt a start _ hlt, hgs]
    have hpre' : ∀ j, j < start + 1 → (a.set ⟨start, hlt⟩ (g start))[j]? = some (g j) := by
      intro j hj
      rcases Nat.lt_or_ge j start with hj' | hj'
      · rw [Array.getElem?_set_ne _ _ _ (by simpa using Nat.ne_of_lt' hj')]
        exact hpre j hj'
      · have : j = start := by omega
        subst this
        simpa using Array.getElem?_set_eq a ⟨j, hlt⟩ (g j)
    obtain ⟨b, hb, hbsz, hbget⟩ :=
      ih (start + 1) (a.set ⟨start, hlt⟩ (g start)) (by omega) (by simpa using by omega) hpre'
    refine ⟨b, ?_, by simpa using hbsz, fun j hj => hbget j (by omega)⟩
    rw [List.range'_succ, chainLoop, hstep, Option.some_bind, hb]

lemma pqHostTable_spec (ω : F) (n maxDeg : Nat) (h : 1 ≤ maxDeg) :
    ∃ pqA : Array F, pqHostTable ω n maxDeg = some pqA ∧
      pqA.size = 2 ^ (maxDeg - 1) ∧
      ∀ i, i < 2 ^ (maxDeg - 1) → pqA[i]? = some ((ω ^ (n >>> maxDeg)) ^ i) := by
  have hm := one_shl_shr maxDeg h
  have hmpos : 0 < 2 ^ (maxDeg - 1) := Nat.pos_pow_of_pos _ (by norm_num)
  have h0 : (0 : Nat) < (Array.mkArray (2 ^ (maxDeg - 1)) (default : F)).size := by
    simpa using hmpos
  rw [pqHostTable, hm, setChecked_lt _ 0 _ h0, Option.some_bind]
  set tw := ω ^ (n >>> maxDeg) with htw
  set tpq1 := (Array.mkArray (2 ^ (maxDeg - 1)) (default : F)).set ⟨0, h0⟩ 1 with htpq1
  have hsz1 : tpq1.size = 2 ^ (maxDeg - 1) := by simp [htpq1]
  have hget1 : ∀ j, j < 1 → tpq1[j]? = some (tw ^ j) := by
    intro j hj
    have : j = 0 := by omega
    subst this
    simpa [htpq1] using Array.getElem?_set_eq (Array.mkArray (2 ^ (maxDeg - 1)) (default : F)) ⟨0, h0⟩ 1
  by_cases hcase : 1 < maxDeg
  · rw [if_pos hcase]
    have h1 : (1 : Nat) < tpq1.size := by
      rw [hsz1]
      calc (1:Nat) < 2 ^ 1 := by norm_num
        _ ≤ 2 ^ (maxDeg - 1) := Nat.pow_le_pow_right (by norm_num) (by omega)
    rw [setChecked_lt _ 1 _ h1, Option.some_bind]
    have hget2 : ∀ j, j < 2 → (tpq1.set ⟨1, h1⟩ tw)[j]? = some (tw ^ j) := by
      intro j hj
      rcases Nat.lt_or_ge j 1 with hj' | hj'
      · rw [Array.getElem?_set_ne _ _ _ (by simpa using Nat.ne_of_lt' hj')]
        exact hget1 j hj'
      · have : j = 1 := by omega
        subst this
        simpa using Array.getElem?_set_eq tpq1 ⟨1, h1⟩ tw
    obtain ⟨b, hb, hbsz, hbget⟩ :=
      chainLoop_spec (fun x => x * tw) (fun j => tw ^ j) (fun j => pow_succ tw j)
        (2 ^ (maxDeg - 1) - 2) 2 (tpq1.set ⟨1, h1⟩ tw) (by omega)
        (by simp only [Array.size_set, hsz1]; omega) hget2
    refine ⟨b, hb, ?_, ?_⟩
    · rw [hbsz]; simpa using hsz1
    · intro i hi
      exact hbget i (by omega)
  · rw [if_neg hcase]
    have hmd : maxDeg = 1 := by omega
    refine ⟨tpq1, rfl, by simpa [hmd] using hsz1, ?_⟩
    intro i hi
    rw [hmd] at hi
    norm_num at hi
    exact hget1 i (by omega)

lemma omgHostTable_spec (ω : F) :
    ∃ omA : Array F, omgHostTable ω = some omA ∧ omA.size = 32 ∧
      ∀ i, i < 32 → omA[i]? = some (ω ^ 2 ^ i) := by
  have h0 : (0 : Nat) < (Array.mkArray LOG2_MAX_ELEMENTS (default : F)).size := by
    simp [LOG2_MAX_ELEMENTS]
  rw [omgHostTable, setChecked_lt _ 0 _ h0, Option.some_bind]
  set tom1 := (Array.mkArray LOG2_MAX_ELEMENTS (default : F)).set ⟨0, h0⟩ ω with htom1
  have hsz1 : tom1.size = 32 := by simp [htom1, LOG2_MAX_ELEMENTS]
  have hget1 : ∀ j, j < 1 → tom1[j]? = some (ω ^ 2 ^ j) := by
    intro j hj
    have : j = 0 := by omega
    subst this
    simpa [htom1, pow_one] using
      Array.getElem?_set_eq (Array.mkArray LOG2_MAX_ELEMENTS (default : F)) ⟨0, h0⟩ ω
  have hg : ∀ j, ω ^ 2 ^ (j + 1) = (ω ^ 2 ^ j) ^ 2 := by
    intro j
    rw [← pow_mul, ← pow_succ]
  obtain ⟨b, hb, hbsz, hbget⟩ :=
    chainLoop_spec (fun x => x ^ 2) (fun j => ω ^ 2 ^ j) hg
      (LOG2_MAX_ELEMENTS - 1) 1 tom1 (by omega)
      (by rw [hsz1]; simp [LOG2_MAX_ELEMENTS]) hget1
  refine ⟨b, hb, by rw [hbsz, hsz1], ?_⟩
  intro i hi
  exact hbget i (by simp only [LOG2_MAX_ELEMENTS] at *; omega)

lemma setup_pq_spec (ω : F) (n maxDeg : Nat) (h : 1 ≤ maxDeg) :
    ∃ pqA omA : Array F,
      setup_pq ω n maxDeg =
        some ((pqA, omA), [Ev.bufWrite pqA.size, Ev.bufWrite omA.size]) ∧
      pqA.size = 2 ^ (maxDeg - 1) ∧
      (∀ i, i < 2 ^ (maxDeg - 1) → pqA[i]? = some ((ω ^ (n >>> maxDeg)) ^ i)) ∧
      omA.size = 32 ∧
      (∀ i, i < 32 → omA[i]? = some (ω ^ 2 ^ i)) := by
  obtain ⟨pqA, hpq, hpqsz, hpqget⟩ := pqHostTable_spec ω n maxDeg h
  obtain ⟨omA, hom, homsz, homget⟩ := omgHostTable_spec (F := F) ω
  exact ⟨pqA, omA, by rw [setup_pq, hpq, Option.some_bind, hom, Option.some_bind],
    hpqsz, hpqget, homsz, homget⟩

end HostTableLemmas

/-! ## Helper lemmas about the stage loop -/

lemma stageLoopFuel_spec (lgn maxDeg : Nat) (hmd : 1 ≤ maxDeg) :
    ∀ fuel lgp b, lgn ≤ lgp + fuel →
      StageChain lgn maxDeg lgp b (stageLoopFuel lgn maxDeg fuel lgp b).1 ∧
      (stageLoopFuel lgn maxDeg fuel lgp b).2 =
        (if (stageLoopFuel lgn maxDeg fuel lgp b).1.length % 2 = 0 then b else !b) := by
  intro fuel
  induction fuel with
  | zero =>
    intro lgp b hle
    refine ⟨?_, by simp [stageLoopFuel]⟩
    simp only [stageLoopFuel, StageChain]
    omega
  | succ fuel ih =>
    intro lgp b hle
    by_cases hlt : lgp < lgn
    · have hdeg : 1 ≤ min maxDeg (lgn - lgp) := by omega
      have hrec := ih (lgp + min maxDeg (lgn - lgp)) (!b) (by omega)
      rw [stageLoopFuel, if_pos hlt]
      simp only at hrec ⊢
      refine ⟨⟨hlt, rfl, rfl, rfl, hrec.1⟩, ?_⟩
      rw [hrec.2]
      rcases Nat.mod_two_eq_zero_or_one
          ((stageLoopFuel lgn maxDeg fuel (lgp + min maxDeg (lgn - lgp)) (!b)).1.length) with
        h1 | h1
      · have h2 : ((stageLoopFuel lgn maxDeg fuel (lgp + min maxDeg (lgn - lgp)) (!b)).1.length
            + 1) % 2 ≠ 0 := by omega
        simp [List.length_cons, h1, h2]
      · have h2 : ((stageLoopFuel lgn maxDeg fuel (lgp + min maxDeg (lgn - lgp)) (!b)).1.length
            + 1) % 2 = 0 := by omega
        simp [List.length_cons, h1, h2]
    · rw [stageLoopFuel, if_neg hlt]
      refine ⟨?_, by simp⟩
      simp only [StageChain]
      omega

lemma stageChain_last_write (lgn maxDeg : Nat) :
    ∀ (st : List Stage) (lgp : Nat) (b : Bool) (s : Stage),
      StageChain lgn maxDeg lgp b st → st.getLast? = some s →
      readBackBuf (if st.length % 2 = 0 then b else !b) = stageWriteBuf s := by
  intro st
  induction st with
  | nil => intro lgp b s _ hlast; simp at hlast
  | cons s0 rest ih =>
    intro lgp b s hchain hlast
    simp only [StageChain] at hchain
    obtain ⟨-, -, -, hsrc, hrest⟩ := hchain
    cases rest with
    | nil =>
      simp only [List.getLast?_singleton, Option.some.injEq] at hlast
      subst hlast
      cases b with
      | false => simp [readBackBuf, stageWriteBuf, hsrc]
      | true => simp [readBackBuf, stageWriteBuf, hsrc]
    | cons r1 rs =>
      have hlast' : (r1 :: rs).getLast? = some s := by
        rw [← hlast, List.getLast?_cons_cons]
      have := ih (lgp + s0.deg) (!b) s hrest hlast'
      have hL : (s0 :: r1 :: rs).length = (r1 :: rs).length + 1 := rfl
      rcases Nat.mod_two_eq_zero_or_one (r1 :: rs).length with h1 | h1
      · have h2 : ¬ (s0 :: r1 :: rs).length % 2 = 0 := by rw [hL]; omega
        rw [if_pos h1] at this
        rw [if_neg h2]
        simpa using this
      · have h2 : (s0 :: r1 :: rs).length % 2 = 0 := by rw [hL]; omega
        rw [if_neg (by omega : ¬ (r1 :: rs).length % 2 = 0)] at this
        rw [if_pos h2]
        simpa using this

lemma radixLoopFuel_eq_stageLoopFuel (lgn maxDeg : Nat) (sb : Bool) :
    ∀ (fuel lgp : Nat) (b : Bool) (st : List Stage) (fin : Bool),
      radixLoopFuel lgn maxDeg sb fuel lgp b = some (.ok (st, fin)) →
      st = (stageLoopFuel lgn maxDeg fuel lgp b).1 ∧
      fin = (stageLoopFuel lgn maxDeg fuel lgp b).2 := by
  intro fuel
  induction fuel with
  | zero =>
    intro lgp b st fin h
    simp only [radixLoopFuel, Option.some.injEq, GPUResult.ok.injEq, Prod.mk.injEq] at h
    simp [stageLoopFuel, h.1, h.2]
  | succ fuel ih =>
    intro lgp b st fin h
    by_cases hlt : lgp < lgn
    · rw [radixLoopFuel, if_pos hlt] at h
      rw [stageLoopFuel, if_pos hlt]
      simp only at h ⊢
      split at h
      · exact absurd h (by simp)
      · exact absurd h (by simp)
      case _ _ kc heq =>
        split at h
        · exact absurd h (by simp)
        · exact absurd h (by simp)
        case _ _ p heq2 =>
          simp only [Option.some.injEq, GPUResult.ok.injEq, Prod.mk.injEq] at h
          obtain ⟨hst, hfin⟩ := h
          obtain ⟨h1, h2⟩ := ih _ _ _ _ heq2
          constructor
          · rw [← hst, h1]
          · rw [← hfin, h2]
    · rw [radixLoopFuel, if_neg hlt] at h
      rw [stageLoopFuel, if_neg hlt]
      simp only [Option.some.injEq, GPUResult.ok.injEq, Prod.mk.injEq] at h
      simp [h.1, h.2]

lemma radix_fft_round_ok_eq (lgn lgp deg maxDeg : Nat) (inSrc : Bool)
    (h32 : lgn < 32) (hdeg : deg ≠ 0) :
    radix_fft_round lgn lgp deg maxDeg inSrc false = some (.ok
      { globalWS := 1 <<< lgn >>> deg <<< min (deg - 1) MAX_LOCAL_WORK_SIZE_DEGREE
        localWS := 1 <<< min (deg - 1) MAX_LOCAL_WORK_SIZE_DEGREE
        args := [Arg.buf (if inSrc then BufId.src else BufId.dst),
                 Arg.buf (if inSrc then BufId.dst else BufId.src),
                 Arg.pqTable, Arg.omgTable,
                 Arg.localScratch (1 <<< deg),
                 Arg.num (1 <<< lgn), Arg.num lgp, Arg.num deg, Arg.num maxDeg] }) := by
  unfold radix_fft_round
  rw [if_neg (by simp), if_neg (by omega : ¬ 32 ≤ lgn), if_neg hdeg]

lemma radix_fft_round_isOk (lgn lgp deg maxDeg : Nat) (inSrc : Bool)
    (h32 : lgn < 32) (hdeg : deg ≠ 0) :
    ∃ kc, radix_fft_round lgn lgp deg maxDeg inSrc false = some (.ok kc) :=
  ⟨_, radix_fft_round_ok_eq lgn lgp deg maxDeg inSrc h32 hdeg⟩

section MoreHostTableLemmas

variable {F : Type} [Monoid F] [Inhabited F]

lemma setup_pq_events (ω : F) (n maxDeg : Nat) (t : Array F × Array F) (evs : List Ev)
    (h : setup_pq ω n maxDeg = some (t, evs)) :
    ∃ x y, evs = [Ev.bufWrite x, Ev.bufWrite y] := by
  unfold setup_pq at h
  cases hpq : pqHostTable ω n maxDeg with
  | none => rw [hpq] at h; simp at h
  | some tpq =>
    rw [hpq, Option.some_bind] at h
    cases hom : omgHostTable ω with
    | none => rw [hom] at h; simp at h
    | some tom =>
      rw [hom, Option.some_bind] at h
      simp only [Option.some.injEq, Prod.mk.injEq] at h
      exact ⟨tpq.size, tom.size, h.2.symm⟩

lemma setup_pq_zero (ω : F) (n : Nat) : setup_pq ω n 0 = none := rfl

lemma setup_pq_isSome (ω : F) (n maxDeg : Nat) (h : 1 ≤ maxDeg) :
    (setup_pq ω n maxDeg).isSome := by
  obtain ⟨pqA, omA, heq, -⟩ := setup_pq_spec ω n maxDeg h
  rw [heq]
  rfl

end MoreHostTableLemmas

lemma radixLoopFuel_ok (lgn maxDeg : Nat) (hmd : 1 ≤ maxDeg) (h32 : lgn < 32) :
    ∀ (fuel lgp : Nat) (b : Bool),
      ∃ st fin, radixLoopFuel lgn maxDeg false fuel lgp b = some (.ok (st, fin)) := by
  intro fuel
  induction fuel with
  | zero => intro lgp b; exact ⟨[], b, rfl⟩
  | succ fuel ih =>
    intro lgp b
    by_cases hlt : lgp < lgn
    · have hdeg : min maxDeg (lgn - lgp) ≠ 0 := by omega
      obtain ⟨kc, hkc⟩ := radix_fft_round_isOk lgn lgp (min maxDeg (lgn - lgp)) maxDeg b h32 hdeg
      obtain ⟨st, fin, hrec⟩ := ih (lgp + min maxDeg (lgn - lgp)) (!b)
      refine ⟨⟨lgp, min maxDeg (lgn - lgp), b⟩ :: st, fin, ?_⟩
      rw [radixLoopFuel, if_pos hlt]
      simp only
      rw [hkc, hrec]
    · exact ⟨[], b, by rw [radixLoopFuel, if_neg hlt]⟩

/-! ## Claim theorems -/

/-- C1: for every `omega`, `N` and `1 ≤ max_deg ≤ 8`, after `setup_pq(omega, N,
max_deg)` returns successfully, the host-built tables satisfy `pq[i] = tw^i` for
every `0 ≤ i < 2^(max_deg-1)` where `tw = omega^(N / 2^max_deg)`, and
`omg[i] = omega^(2^i)` for every `0 ≤ i < 32`, with all 32 `omg` entries populated. -/
theorem C1_setup_pq_tables {F : Type} [Monoid F] [Inhabited F] (ω : F) (n maxDeg : Nat)
    (h1 : 1 ≤ maxDeg) (h2 : maxDeg ≤ 8) :
    ∃ (pqA omA : Array F) (evs : List Ev),
      setup_pq ω n maxDeg = some ((pqA, omA), evs) ∧
      pqA.size = 2 ^ (maxDeg - 1) ∧
      (∀ i, i < 2 ^ (maxDeg - 1) → pqA[i]? = some ((ω ^ (n / 2 ^ maxDeg)) ^ i)) ∧
      omA.size = 32 ∧
      (∀ i, i < 32 → omA[i]? = some (ω ^ 2 ^ i)) := by
  obtain ⟨pqA, omA, heq, hpqsz, hpqget, homsz, homget⟩ := setup_pq_spec ω n maxDeg h1
  refine ⟨pqA, omA, _, heq, hpqsz, ?_, homsz, homget⟩
  intro i hi
  rw [← Nat.shiftRight_eq_div_pow]
  exact hpqget i hi

/-- Witness for C1 at `omega = 2`, `N = 8`, `max_deg = 3` over `ZMod 5`. -/
theorem C1_setup_pq_tables_witness :
    ∃ (pqA omA : Array (ZMod 5)) (evs : List Ev),
      setup_pq (2 : ZMod 5) 8 3 = some ((pqA, omA), evs) ∧
      pqA.size = 2 ^ (3 - 1) ∧
      (∀ i, i < 2 ^ (3 - 1) → pqA[i]? = some (((2 : ZMod 5) ^ (8 / 2 ^ 3)) ^ i)) ∧
      omA.size = 32 ∧
      (∀ i, i < 32 → omA[i]? = some ((2 : ZMod 5) ^ 2 ^ i)) :=
  C1_setup_pq_tables (2 : ZMod 5) 8 3 (by decide) (by decide)

/-- C6 (counterexample): `setup_pq` with `max_deg = 1` transfers a single-entry host
`pq` buffer to the device, not the full 128-entry table the claim asserts. -/
theorem C6_counterexample :
    (setup_pq (1 : ZMod 5) 2 1).map (fun r => r.2) =
      some [Ev.bufWrite 1, Ev.bufWrite 32] ∧ (1 : Nat) ≠ 128 := by
  constructor
  · decide
  · decide

/-- C6 (amended): for every `1 ≤ max_deg ≤ 8`, `setup_pq` builds a host `pq` buffer of
exactly `2^(max_deg-1)` entries and transfers exactly those entries to the device
(together with the 32-entry `omg` buffer); the transfer covers the full 128-entry
device table only when `max_deg = 8`. -/
theorem C6_transfer_size {F : Type} [Monoid F] [Inhabited F] (ω : F) (n maxDeg : Nat)
    (h1 : 1 ≤ maxDeg) (h2 : maxDeg ≤ 8) :
    ∃ pqA omA : Array F,
      setup_pq ω n maxDeg =
        some ((pqA, omA), [Ev.bufWrite (2 ^ (maxDeg - 1)), Ev.bufWrite 32]) ∧
      pqA.size = 2 ^ (maxDeg - 1) ∧
      (maxDeg = 8 → pqA.size = 128) := by
  obtain ⟨pqA, omA, heq, hpqsz, hpqget, homsz, homget⟩ := setup_pq_spec ω n maxDeg h1
  refine ⟨pqA, omA, ?_, hpqsz, ?_⟩
  · rw [heq, hpqsz, homsz]
  · intro h8
    rw [hpqsz, h8]
    norm_num

/-- Witness for C6 (amended) at `max_deg = 1` over `ZMod 5`: the transfer is one
`pq` element, not 128. -/
theorem C6_transfer_size_witness :
    ∃ pqA omA : Array (ZMod 5),
      setup_pq (1 : ZMod 5) 2 1 =
        some ((pqA, omA), [Ev.bufWrite (2 ^ (1 - 1)), Ev.bufWrite 32]) ∧
      pqA.size = 2 ^ (1 - 1) ∧ ((1 : Nat) = 8 → pqA.size = 128) :=
  C6_transfer_size (1 : ZMod 5) 2 1 (by decide) (by decide)

/-- C9: for every call of `setup_pq` with `max_deg ≥ 1` every host-table index access
is in bounds (the call returns without panicking), while for `max_deg = 0` — as
induced by `radix_fft` or `inplace_fft` with `lgn = 0` — the host `pq` vector is empty
and the write `pq[0]` is out of bounds, so the call panics (`none`) instead of
returning an error value. -/
theorem C9_setup_pq_bounds {F : Type} [Monoid F] [Inhabited F] (ω : F) (n maxDeg : Nat) :
    (1 ≤ maxDeg → (setup_pq ω n maxDeg).isSome) ∧
    setup_pq ω n 0 = none ∧
    (∀ aLen, radix_fft ω aLen 0 false = none) ∧
    (∀ aLen, inplace_fft ω aLen 0 false = none) := by
  refine ⟨fun h => setup_pq_isSome ω n maxDeg h, setup_pq_zero ω n, ?_, ?_⟩
  · intro aLen
    unfold radix_fft
    rw [show min MAX_RADIX_DEGREE 0 = 0 from rfl, setup_pq_zero, Option.none_bind]
  · intro aLen
    unfold inplace_fft
    rw [if_neg (by simp), show min MAX_RADIX_DEGREE 0 = 0 from rfl, setup_pq_zero,
      Option.none_bind]

/-- Witness for C9 over `ZMod 5`: `setup_pq` succeeds at `max_deg = 2` and panics at
`max_deg = 0`, as do `radix_fft` and `inplace_fft` at `lgn = 0`. -/
theorem C9_setup_pq_bounds_witness :
    (setup_pq (2 : ZMod 5) 4 2).isSome ∧
    setup_pq (2 : ZMod 5) 4 0 = none ∧
    radix_fft (2 : ZMod 5) 4 0 false = none ∧
    inplace_fft (2 : ZMod 5) 4 0 false = none :=
  ⟨(C9_setup_pq_bounds (2 : ZMod 5) 4 2).1 (by decide),
   (C9_setup_pq_bounds (2 : ZMod 5) 4 2).2.1,
   (C9_setup_pq_bounds (2 : ZMod 5) 4 2).2.2.1 4,
   (C9_setup_pq_bounds (2 : ZMod 5) 4 2).2.2.2 4⟩

/-- C2: the stage loop of `radix_fft` starts with `in_src = true`, `lgp = 0`; each
iteration takes `deg = min(max_deg, lgn - lgp)`, advances `lgp` by `deg` and flips
`in_src` (the `StageChain` conjunct); the final `in_src` is `true` exactly when an
even number of stages ran; the buffer read back (`src` iff the final `in_src`) is
always the one the last stage wrote to; exactly one stage runs when `lgn ≤ max_deg`;
and the effectful loop (`radixLoopFuel`), when it completes without error, runs
exactly this schedule. -/
theorem C2_stage_loop (lgn : Nat) (h : 1 ≤ lgn) :
    StageChain lgn (min MAX_RADIX_DEGREE lgn) 0 true (radixStages lgn) ∧
    (radixFinalInSrc lgn = true ↔ (radixStages lgn).length % 2 = 0) ∧
    radixStages lgn ≠ [] ∧
    (∀ s, (radixStages lgn).getLast? = some s →
      readBackBuf (radixFinalInSrc lgn) = stageWriteBuf s) ∧
    (lgn ≤ min MAX_RADIX_DEGREE lgn → (radixStages lgn).length = 1) ∧
    (∀ (sb : Bool) (st : List Stage) (fin : Bool),
      radixLoopFuel lgn (min MAX_RADIX_DEGREE lgn) sb lgn 0 true = some (.ok (st, fin)) →
      st = radixStages lgn ∧ fin = radixFinalInSrc lgn) := by
  have h8 : MAX_RADIX_DEGREE = 8 := rfl
  have hmd : 1 ≤ min MAX_RADIX_DEGREE lgn := by rw [h8]; omega
  have hspec := stageLoopFuel_spec lgn (min MAX_RADIX_DEGREE lgn) hmd lgn 0 true (by omega)
  have hne : radixStages lgn ≠ [] := by
    intro hnil
    have hc := hspec.1
    rw [show (stageLoopFuel lgn (min MAX_RADIX_DEGREE lgn) lgn 0 true).1
        = radixStages lgn from rfl, hnil] at hc
    simp only [StageChain] at hc
    omega
  refine ⟨hspec.1, ?_, hne, ?_, ?_, ?_⟩
  · rw [show (stageLoopFuel lgn (min MAX_RADIX_DEGREE lgn) lgn 0 true).2
        = radixFinalInSrc lgn from rfl] at hspec
    rw [hspec.2]
    rcases Nat.mod_two_eq_zero_or_one (radixStages lgn).length with h1 | h1
    · rw [show (stageLoopFuel lgn (min MAX_RADIX_DEGREE lgn) lgn 0 true).1
          = radixStages lgn from rfl, if_pos h1]
      simp [h1]
    · rw [show (stageLoopFuel lgn (min MAX_RADIX_DEGREE lgn) lgn 0 true).1
          = radixStages lgn from rfl, if_neg (by omega)]
      simp
      omega
  · intro s hlast
    have hw := stageChain_last_write lgn (min MAX_RADIX_DEGREE lgn)
      (radixStages lgn) 0 true s hspec.1 hlast
    have hfin : radixFinalInSrc lgn =
        (if (radixStages lgn).length % 2 = 0 then true else !true) := hspec.2
    rw [hfin]
    exact hw
  · intro hle
    obtain ⟨s0, rest, hst⟩ : ∃ s0 rest, radixStages lgn = s0 :: rest := by
      cases hc : radixStages lgn with
      | nil => exact absurd hc hne
      | cons a l => exact ⟨a, l, rfl⟩
    have hchain := hspec.1
    rw [show (stageLoopFuel lgn (min MAX_RADIX_DEGREE lgn) lgn 0 true).1
        = radixStages lgn from rfl, hst] at hchain
    simp only [StageChain] at hchain
    obtain ⟨hlt, hlgp, hdeg, hsrcb, hrest⟩ := hchain
    have hdeg' : s0.deg = lgn := by omega
    cases hre : rest with
    | nil => rw [hst, hre]; rfl
    | cons r rs =>
      rw [hre] at hrest
      simp only [StageChain] at hrest
      have := hrest.1
      omega
  · intro sb st fin hloop
    exact radixLoopFuel_eq_stageLoopFuel lgn (min MAX_RADIX_DEGREE lgn) sb lgn 0 true st fin hloop

/-- Witness for C2 at `lgn = 10` (two stages: degrees 8 and 2; the final `in_src` is
`true` again, and the read-back is from `src`, where the second stage wrote). -/
theorem C2_stage_loop_witness :
    StageChain 10 (min MAX_RADIX_DEGREE 10) 0 true (radixStages 10) ∧
    (radixFinalInSrc 10 = true ↔ (radixStages 10).length % 2 = 0) ∧
    radixStages 10 ≠ [] ∧
    (∀ s, (radixStages 10).getLast? = some s →
      readBackBuf (radixFinalInSrc 10) = stageWriteBuf s) ∧
    (10 ≤ min MAX_RADIX_DEGREE 10 → (radixStages 10).length = 1) ∧
    (∀ (sb : Bool) (st : List Stage) (fin : Bool),
      radixLoopFuel 10 (min MAX_RADIX_DEGREE 10) sb 10 0 true = some (.ok (st, fin)) →
      st = radixStages 10 ∧ fin = radixFinalInSrc 10) :=
  C2_stage_loop 10 (by decide)

/-- C3: for every call of `radix_fft_round` with `deg ≥ 1`, `deg ≤ max_deg ≤ 8` and
`lgp + deg ≤ lgn` whose kernel is actually built and enqueued, the kernel uses global
work size `(N >> deg) << lwsd` and local work size `1 << lwsd`, with `N = 2^lgn` and
`lwsd = min(deg - 1, 7)`, and its arguments in order are: the read buffer (`src` if
`in_src` else `dst`), the write buffer (the other one), the `pq` table, the `omg`
table, a work-group-local scratch region of `2^deg` field elements, `N`, `lgp`, `deg`,
`max_deg`. -/
theorem C3_round_geometry (lgn lgp deg maxDeg : Nat) (inSrc sb : Bool) (kc : KernelCall)
    (h1 : 1 ≤ deg) (h2 : deg ≤ maxDeg) (h3 : maxDeg ≤ 8) (h4 : lgp + deg ≤ lgn)
    (hok : radix_fft_round lgn lgp deg maxDeg inSrc sb = some (.ok kc)) :
    kc.globalWS = 2 ^ lgn / 2 ^ deg * 2 ^ min (deg - 1) 7 ∧
    kc.localWS = 2 ^ min (deg - 1) 7 ∧
    kc.args = [Arg.buf (if inSrc then BufId.src else BufId.dst),
               Arg.buf (if inSrc then BufId.dst else BufId.src),
               Arg.pqTable, Arg.omgTable,
               Arg.localScratch (2 ^ deg),
               Arg.num (2 ^ lgn), Arg.num lgp, Arg.num deg, Arg.num maxDeg] := by
  unfold radix_fft_round at hok
  by_cases hsb : sb = true
  · rw [if_pos hsb] at hok
    exact absurd hok (by simp)
  · rw [if_neg hsb] at hok
    by_cases h32 : 32 ≤ lgn
    · rw [if_pos h32] at hok
      exact absurd hok (by simp)
    · rw [if_neg h32, if_neg (by omega : ¬ deg = 0)] at hok
      simp only [Option.some.injEq, GPUResult.ok.injEq] at hok
      subst hok
      refine ⟨?_, ?_, ?_⟩
      · show 1 <<< lgn >>> deg <<< min (deg - 1) MAX_LOCAL_WORK_SIZE_DEGREE
            = 2 ^ lgn / 2 ^ deg * 2 ^ min (deg - 1) 7
        rw [Nat.one_shiftLeft, Nat.shiftRight_eq_div_pow, Nat.shiftLeft_eq]
        rfl
      · show 1 <<< min (deg - 1) MAX_LOCAL_WORK_SIZE_DEGREE = 2 ^ min (deg - 1) 7
        rw [Nat.one_shiftLeft]
        rfl
      · show [Arg.buf (if inSrc then BufId.src else BufId.dst),
              Arg.buf (if inSrc then BufId.dst else BufId.src),
              Arg.pqTable, Arg.omgTable,
              Arg.localScratch (1 <<< deg),
              Arg.num (1 <<< lgn), Arg.num lgp, Arg.num deg, Arg.num maxDeg] = _
        rw [Nat.one_shiftLeft, Nat.one_shiftLeft]

/-- Witness for C3 at `lgn = 3`, `lgp = 0`, `deg = max_deg = 3`, `in_src = true`:
the kernel has global work size 4, local work size 4, and the stated arguments. -/
theorem C3_round_geometry_witness :
    ∃ kc, radix_fft_round 3 0 3 3 true false = some (.ok kc) ∧
      (kc.globalWS = 2 ^ 3 / 2 ^ 3 * 2 ^ min (3 - 1) 7 ∧
       kc.localWS = 2 ^ min (3 - 1) 7 ∧
       kc.args = [Arg.buf BufId.src, Arg.buf BufId.dst,
                  Arg.pqTable, Arg.omgTable, Arg.localScratch (2 ^ 3),
                  Arg.num (2 ^ 3), Arg.num 0, Arg.num 3, Arg.num 3]) := by
  have h := radix_fft_round_ok_eq 3 0 3 3 true (by omega) (by omega)
  refine ⟨_, h, ?_⟩
  have hc := C3_round_geometry 3 0 3 3 true false _
    (by omega) (by omega) (by omega) (by omega) h
  simpa using hc

/-- C4: when the priority flag is `false` and the priority signal indicates
pre-emption, `radix_fft_round` returns a cancellation error at its entry, before
building or enqueuing any kernel, and `inplace_fft` returns a cancellation error at
its entry before any allocation or kernel; `setup_pq` performs no cancellation check,
and no cancellation check occurs between the stages of the in-place path (its trace
has exactly one check, at the very front). -/
theorem C4_cancellation {F : Type} [Monoid F] [Inhabited F] :
    (∀ (lgn lgp deg maxDeg : Nat) (inSrc : Bool),
      radix_fft_round lgn lgp deg maxDeg inSrc (should_break false true) =
        some (.err .GPUTaken)) ∧
    (∀ (ω : F) (aLen lgn : Nat),
      inplace_fft ω aLen lgn (should_break false true) =
        some (.err .GPUTaken, [Ev.prioCheck])) ∧
    (∀ (ω : F) (n maxDeg : Nat) (t : Array F × Array F) (evs : List Ev),
      setup_pq ω n maxDeg = some (t, evs) → Ev.prioCheck ∉ evs) ∧
    (∀ (ω : F) (aLen lgn : Nat) (sb : Bool) (res : GPUResult Unit) (tr : List Ev),
      inplace_fft ω aLen lgn sb = some (res, tr) →
      ∃ rest, tr = Ev.prioCheck :: rest ∧ Ev.prioCheck ∉ rest) := by
  refine ⟨?_, ?_, ?_, ?_⟩
  · intro lgn lgp deg maxDeg inSrc
    rfl
  · intro ω aLen lgn
    rfl
  · intro ω n maxDeg t evs h
    obtain ⟨x, y, hevs⟩ := setup_pq_events ω n maxDeg t evs h
    rw [hevs]
    simp
  · intro ω aLen lgn sb res tr h
    unfold inplace_fft at h
    by_cases hsb : sb = true
    · rw [if_pos hsb] at h
      simp only [Option.some.injEq, Prod.mk.injEq] at h
      exact ⟨[], h.2.symm, by simp⟩
    · rw [if_neg hsb] at h
      cases hs : setup_pq ω (1 <<< lgn) (min MAX_RADIX_DEGREE lgn) with
      | none => rw [hs, Option.none_bind] at h; exact absurd h (by simp)
      | some r =>
        simp only [hs, Option.some_bind] at h
        obtain ⟨x, y, hevs⟩ := setup_pq_events ω (1 <<< lgn) (min MAX_RADIX_DEGREE lgn)
          r.1 r.2 (by rw [hs])
        by_cases hle : aLen ≤ 1 <<< lgn
        · rw [if_pos hle] at h
          simp only [Option.some.injEq, Prod.mk.injEq] at h
          refine ⟨_, h.2.symm, ?_⟩
          rw [hevs]
          simp [List.mem_append, List.mem_map]
        · rw [if_neg hle] at h
          simp only [Option.some.injEq, Prod.mk.injEq] at h
          refine ⟨_, h.2.symm, ?_⟩
          rw [hevs]
          simp

/-- Witness for C4 over `ZMod 5`: the round and the in-place driver are cancelled at
entry when `should_break(false)` holds with the signal set; the `setup_pq` trace has
no check event; a full in-place trace has its only check at the front. -/
theorem C4_cancellation_witness :
    radix_fft_round 3 0 1 1 true (should_break false true) = some (.err .GPUTaken) ∧
    inplace_fft (1 : ZMod 5) 2 1 (should_break false true) =
      some (.err .GPUTaken, [Ev.prioCheck]) ∧
    (∃ evs, (setup_pq (1 : ZMod 5) 2 1).map Prod.snd = some evs ∧ Ev.prioCheck ∉ evs) ∧
    (∃ tr rest, inplace_fft (1 : ZMod 5) 2 1 false = some (.ok (), tr) ∧
      tr = Ev.prioCheck :: rest ∧ Ev.prioCheck ∉ rest) := by
  obtain ⟨pqA, omA, heq, -, -, -, -⟩ := setup_pq_spec (1 : ZMod 5) 2 1 (by norm_num)
  have hsp : setup_pq (1 : ZMod 5) (1 <<< 1) (min MAX_RADIX_DEGREE 1) =
      some ((pqA, omA), [Ev.bufWrite pqA.size, Ev.bufWrite omA.size]) := heq
  have hip : inplace_fft (1 : ZMod 5) 2 1 false =
      some (.ok (), Ev.prioCheck :: Ev.bufAlloc (1 <<< 1) ::
        ([Ev.bufWrite pqA.size, Ev.bufWrite omA.size] ++ Ev.bufWrite 2 ::
          Ev.kernelEnq "reverse_bits" ::
          ((List.range 1).map fun _ => Ev.kernelEnq "inplace_fft") ++ [Ev.bufRead 2])) := by
    unfold inplace_fft
    simp only [if_neg (by simp : ¬ (false = true)), hsp, Option.some_bind]
    rw [if_pos (by decide : (2 : Nat) ≤ 1 <<< 1)]
  obtain ⟨rest, hr1, hr2⟩ :=
    (C4_cancellation (F := ZMod 5)).2.2.2 (1 : ZMod 5) 2 1 false (.ok ()) _ hip
  exact ⟨(C4_cancellation (F := ZMod 5)).1 3 0 1 1 true,
    (C4_cancellation (F := ZMod 5)).2.1 (1 : ZMod 5) 2 1,
    ⟨_, by rw [heq]; rfl,
      (C4_cancellation (F := ZMod 5)).2.2.1 (1 : ZMod 5) 2 1 (pqA, omA) _ heq⟩,
    ⟨_, rest, hip, hr1, hr2⟩⟩

lemma radixLoopFuel_none_of_32 (lgn maxDeg : Nat) (h32 : 32 ≤ lgn) :
    ∀ (fuel lgp : Nat) (b : Bool), lgp < lgn →
      radixLoopFuel lgn maxDeg false (fuel + 1) lgp b = none := by
  intro fuel lgp b hlt
  rw [radixLoopFuel, if_pos hlt]
  simp only
  have hr : radix_fft_round lgn lgp (min maxDeg (lgn - lgp)) maxDeg b false = none := by
    unfold radix_fft_round
    rw [if_neg (by simp), if_pos h32]
  rw [hr]

/-- C5: `fft(a, omega, lgn)` compares the queried device memory against
`MIN_RADIX_MEMORY = 9 GiB = 9663676416` bytes; when the memory strictly exceeds the
threshold it delegates to `radix_fft(a, omega, lgn)`, otherwise to
`inplace_fft(a, omega, lgn)`. -/
theorem C5_fft_selector {F : Type} [Monoid F] [Inhabited F] (ω : F)
    (aLen lgn : Nat) (sb : Bool) (mem : Nat) :
    MIN_RADIX_MEMORY = 9663676416 ∧
    (9663676416 < mem → fft ω aLen lgn sb mem = Sum.inl (radix_fft ω aLen lgn sb)) ∧
    (mem ≤ 9663676416 → fft ω aLen lgn sb mem = Sum.inr (inplace_fft ω aLen lgn sb)) := by
  have hmm : MIN_RADIX_MEMORY = 9663676416 := by norm_num [MIN_RADIX_MEMORY]
  refine ⟨hmm, ?_, ?_⟩
  · intro h
    unfold fft
    rw [if_pos (by rw [hmm]; omega : mem > MIN_RADIX_MEMORY)]
  · intro h
    unfold fft
    rw [if_neg (by rw [hmm]; omega : ¬ mem > MIN_RADIX_MEMORY)]

/-- Witness for C5 over `ZMod 5`: one byte above the threshold selects the radix
driver, the threshold itself selects the in-place driver. -/
theorem C5_fft_selector_witness :
    fft (1 : ZMod 5) 2 1 false 9663676417 = Sum.inl (radix_fft (1 : ZMod 5) 2 1 false) ∧
    fft (1 : ZMod 5) 2 1 false 9663676416 =
      Sum.inr (inplace_fft (1 : ZMod 5) 2 1 false) :=
  ⟨(C5_fft_selector (1 : ZMod 5) 2 1 false 9663676417).2.1 (by norm_num),
   (C5_fft_selector (1 : ZMod 5) 2 1 false 9663676416).2.2 (by norm_num)⟩

/-- C7: the claim that `radix_fft` and `radix_fft_round` compute `N = 2^lgn` without
overflow for all `1 ≤ lgn ≤ 32` fails at `lgn = 32`.  `radix_fft` computes
`n = 1 << lgn` in `usize` and indeed gets `2^32`, but `radix_fft_round` computes
`n = 1u32 << lgn`, a `u32` shift whose amount equals the bit width at `lgn = 32`:
an arithmetic overflow (panic, modelled as `none`), so every round — and the radix
driver as a whole — panics at `lgn = 32` instead of running with `N = 2^32`. -/
theorem C7_lgn32_overflow {F : Type} [Monoid F] [Inhabited F] :
    (1 <<< 32 : Nat) = 2 ^ 32 ∧
    (∀ (lgp deg maxDeg : Nat) (inSrc : Bool),
      radix_fft_round 32 lgp deg maxDeg inSrc false = none) ∧
    (∀ ω : F, radix_fft ω 0 32 false = none) := by
  refine ⟨Nat.one_shiftLeft 32, ?_, ?_⟩
  · intro lgp deg maxDeg inSrc
    unfold radix_fft_round
    rw [if_neg (by simp), if_pos (by omega : 32 ≤ 32)]
  · intro ω
    obtain ⟨pqA, omA, heq, -, -, -, -⟩ :=
      setup_pq_spec (F := F) ω (1 <<< 32) (min MAX_RADIX_DEGREE 32) (by decide)
    unfold radix_fft
    simp only [heq, Option.some_bind]
    rw [if_pos (Nat.zero_le _)]
    have hnone : radixLoopFuel 32 (min MAX_RADIX_DEGREE 32) false 32 0 true = none :=
      radixLoopFuel_none_of_32 32 (min MAX_RADIX_DEGREE 32) (by omega) 31 0 true (by omega)
    rw [hnone, Option.none_bind]

/-- C8 (counterexample): `radix_fft` called with a slice of length 1 and `lgn = 1`
(so the slice length differs from `2^lgn = 2`) succeeds — no precondition error is
raised. -/
theorem C8_counterexample :
    radix_fft (1 : ZMod 5) 1 1 false = some (.ok BufId.dst) ∧ (1 : Nat) ≠ 2 ^ 1 :=
  ⟨by decide, by decide⟩

/-- C8 (amended): the transform entry points perform no validation of `lgn` or of the
slice length: for every `1 ≤ lgn ≤ 31` and every slice length `aLen ≤ 2^lgn` — equal
to `2^lgn` or not — `radix_fft` runs to completion and returns success (device
operations permitting); slice-length mismatches surface only as device transfer
errors (`aLen > 2^lgn`), a panic (`lgn = 0`, see C9), or an arithmetic overflow
(`lgn = 32`, see C7), never as a returned precondition error. -/
theorem C8_no_validation {F : Type} [Monoid F] [Inhabited F] (ω : F) (aLen lgn : Nat)
    (h1 : 1 ≤ lgn) (h2 : lgn ≤ 31) (h3 : aLen ≤ 2 ^ lgn) :
    ∃ b : BufId, radix_fft ω aLen lgn false = some (.ok b) := by
  have h8 : MAX_RADIX_DEGREE = 8 := rfl
  have hmd : 1 ≤ min MAX_RADIX_DEGREE lgn := by rw [h8]; omega
  obtain ⟨pqA, omA, heq, -, -, -, -⟩ :=
    setup_pq_spec ω (1 <<< lgn) (min MAX_RADIX_DEGREE lgn) hmd
  obtain ⟨st, fin, hloop⟩ :=
    radixLoopFuel_ok lgn (min MAX_RADIX_DEGREE lgn) hmd (by omega) lgn 0 true
  have hle : aLen ≤ 1 <<< lgn := by rw [Nat.one_shiftLeft]; exact h3
  refine ⟨readBackBuf fin, ?_⟩
  unfold radix_fft
  simp only [heq, Option.some_bind]
  rw [if_pos hle]
  rw [hloop, Option.some_bind]
  simp only [radixReadback]
  rw [if_pos hle]

/-- Witness for C8 (amended) over `ZMod 5` at `lgn = 2` with a slice of length 3
(which differs from `2^2 = 4`): the call still succeeds. -/
theorem C8_no_validation_witness :
    ∃ b : BufId, radix_fft (2 : ZMod 5) 3 2 false = some (.ok b) :=
  C8_no_validation (2 : ZMod 5) 3 2 (by decide) (by decide) (by decide)

/-- C10 (counterexample): the GPU lock is not declared last among the fields of
`FFTKernel`: the last declared field is `priority`, not `_lock`. -/
theorem C10_counterexample :
    dropOrder.getLast? = some "priority" ∧ "priority" ≠ "_lock" := by
  refine ⟨rfl, ?_⟩
  decide

/-- C10 (amended): fields of `FFTKernel` are dropped in declaration order (RFC 1857),
and `_lock` is declared after `proque` (the compute context) and both device buffers,
so the GPU lock is released strictly after the device buffers and the context;
`_lock` is the last field whose type has a destructor, but it is not the last
declared field — the `priority` bool (no destructor) follows it. -/
theorem C10_drop_order :
    dropOrder = ["proque", "fft_pq_buffer", "fft_omg_buffer", "_lock", "priority"] ∧
    dropOrder.indexOf "proque" < dropOrder.indexOf "_lock" ∧
    dropOrder.indexOf "fft_pq_buffer" < dropOrder.indexOf "_lock" ∧
    dropOrder.indexOf "fft_omg_buffer" < dropOrder.indexOf "_lock" ∧
    (FFTKernelFields.filter (fun p => p.2)).map Prod.fst =
      ["proque", "fft_pq_buffer", "fft_omg_buffer", "_lock"] ∧
    dropOrder.getLast? = some "priority" := by
  refine ⟨rfl, ?_, ?_, ?_, rfl, rfl⟩ <;> decide

end BellmanFFT
